/-
Verification of the combination-generation and filtering core of the
`gallry-puzzle-soulver` crate (`src/lib.rs`) against its specification.

The Rust library enumerates the Cartesian product of per-position character
sets ("slots") lazily, in odometer order (last slot varies fastest), and
optionally filters the produced strings against a reference word set
(a `HashSet<String>`).

Shallow embedding conventions:
* `Slot` mirrors `struct Slot { options: Vec<char>, current: usize }`.
* `HashSet<String>` is modelled as `Finset String` (membership-only set;
  the code only calls `is_empty` and `contains` on it).
* The two Rust iterators (`AllCombinationsIter`, `WordIter`) share the same
  mutable state: `current_indices: Vec<usize>`, `slot_sizes: Vec<usize>` and
  a `done` flag.  `done` is set at construction iff some slot is empty and
  later when `increment` overflows.  We embed a full run of such an iterator
  as a recursive function on the index vector, with one fuel unit per
  odometer step; `prodList slot_sizes` steps always suffice (proved below),
  and the public entry points use exactly that fuel.
* `increment` walks `current_indices` from the last position to the first,
  adding 1, and on overflow resets the position to 0 and carries left; we
  embed it as `odoInc`, structurally recursive from the front: first try to
  increment the tail (the less-significant positions); if the tail
  overflows it has been reset to all zeros and the carry arrives here.
  `none` models the overflow that sets `done = true`.
* Rust indexing `v[i]` panics when out of range; wherever a claim is about
  panic-freedom we use an `Option`-valued variant (`none` = panic); the
  plain definitions use `getD`, which agrees with the source on every
  in-range access.
-/
import Mathlib

namespace GallryPuzzleSoulver

/-- `struct Slot { options: Vec<char>, current: usize }` from `src/lib.rs`. -/
structure Slot where
  options : List Char
  current : Nat
deriving DecidableEq, Repr

/-- `Slot::new(options)`: sets `current` to 0. -/
def Slot.new (options : List Char) : Slot :=
  { options := options, current := 0 }

/-- `impl Deref for Slot`: `&self.options[self.current]`.  The Rust indexing
panics when `current` is out of range (in particular on a slot with zero
options); `none` models that panic. -/
def Slot.deref (s : Slot) : Option Char :=
  s.options.get? s.current

/-- `impl From<Slot> for String`: `val.options[val.current].to_string()`.
`none` models the indexing panic. -/
def Slot.intoString (s : Slot) : Option String :=
  (s.options.get? s.current).map (fun c => String.mk [c])

/-- `impl Iterator for Slot`: yields `options[current]` and advances, or
`none` when `current` has reached `options.len()`. -/
def Slot.next (s : Slot) : Option Char × Slot :=
  if s.current < s.options.length then
    (s.options.get? s.current, { s with current := s.current + 1 })
  else
    (none, s)

/-- Product of a list of naturals (`slot_sizes` multiplied together);
the product of the empty list is 1. -/
def prodList (l : List Nat) : Nat :=
  l.foldr (fun a b => a * b) 1

/-- Validity of an iterator state: `current_indices` has one entry per slot
and each entry is strictly below the corresponding `slot_sizes` entry.
At construction this is exactly `!done` (`done = !has_options` with all
indices 0), and `increment` preserves it until it overflows. -/
def validIdx : List Nat → List Nat → Bool
  | [], [] => true
  | s :: ss, i :: is => decide (i < s) && validIdx ss is
  | _, _ => false

/-- `increment` from `src/lib.rs` (identical in `AllCombinationsIter` and
`WordIter`): add 1 at the last position; on overflow reset it to 0 and carry
into the preceding position; `none` models the overflow past the first slot
that sets `done = true` (at that point every position has been reset to 0).
Embedded by structural recursion from the front: increment the
less-significant tail first; when the tail overflows (it is then all zeros)
the carry arrives at the current position. -/
def odoInc : List Nat → List Nat → Option (List Nat)
  | s :: ss, i :: is =>
    match odoInc ss is with
    | some is' => some (i :: is')
    | none =>
      if i + 1 < s then some ((i + 1) :: is.map (fun _ => 0)) else none
  | _, _ => none

/-- The mixed-radix value of an index vector: the last slot is the least
significant digit, slot `i` has radix `slot_sizes[i]`. -/
def odoValue : List Nat → List Nat → Nat
  | _ :: ss, i :: is =>
    -- the radix weight of a position is the product of the later sizes
    i * prodList ss + odoValue ss is
  | _, _ => 0

/-- `build_word` from `src/lib.rs`: concatenate, in slot order, the character
at each slot's current index
(`word.push(self.slots[slot_idx].options[char_idx])`).  `getD` stands for the
Rust indexing; every use below is at in-range indices (see `build_word?`). -/
def build_word (slots : List Slot) (indices : List Nat) : String :=
  String.mk (indices.enum.map
    (fun p => ((slots.getD p.1 (Slot.new [])).options).getD p.2 ' '))

/-- Sequence a list of optional characters; `none` anywhere aborts
(models the first panic aborting the program). -/
def optList : List (Option Char) → Option (List Char)
  | [] => some []
  | c? :: rest =>
    match c? with
    | none => none
    | some c =>
      match optList rest with
      | none => none
      | some cs => some (c :: cs)

/-- `build_word` with the two Rust indexing operations made explicit:
`none` models an index-out-of-range panic. -/
def build_wordOpt (slots : List Slot) (indices : List Nat) : Option String :=
  (optList (indices.enum.map
    (fun p => (slots.get? p.1).bind (fun sl => sl.options.get? p.2)))).map
    String.mk

/-- A full run of `AllCombinationsIter` from the state `current_indices = is`
(with `slot_sizes = ss`, `done = !validIdx ss is`): each `next()` call emits
`build_word()` and then `increment`s; the run ends when `done` is set.  One
fuel unit per emitted word; `prodList ss` fuel is always enough. -/
def allRunF (slots : List Slot) (ss : List Nat) : Nat → List Nat → List String
  | 0, _ => []
  | fuel + 1, is =>
    if validIdx ss is then
      build_word slots is ::
        (match odoInc ss is with
         | none => []
         | some is' => allRunF slots ss fuel is')
    else []

/-- A full run of `WordIter` from the state `current_indices = is`: each loop
iteration builds the word, `increment`s, and yields the word iff there is no
word list, or the word list is empty, or it contains the word
(`word_list.is_empty() || word_list.contains(&word)`); otherwise it skips and
continues until `increment` overflows.  One fuel unit per odometer step. -/
def wordRunF (slots : List Slot) (wl : Option (Finset String)) (ss : List Nat) :
    Nat → List Nat → List String
  | 0, _ => []
  | fuel + 1, is =>
    if validIdx ss is then
      match wl with
      | some R =>
        -- `if word_list.is_empty() || word_list.contains(&word) { return Some(word) }`,
        -- otherwise skip this word and continue from the incremented state
        if R = ∅ ∨ build_word slots is ∈ R then
          build_word slots is ::
            (match odoInc ss is with
             | none => []
             | some is' => wordRunF slots wl ss fuel is')
        else
          (match odoInc ss is with
           | none => []
           | some is' => wordRunF slots wl ss fuel is')
      | none =>
        -- `// No filtering, return all words`
        build_word slots is ::
          (match odoInc ss is with
           | none => []
           | some is' => wordRunF slots wl ss fuel is')
    else []

/-- `str::lines` applied to one piece: strips one trailing carriage return
(the `\r` of a `\r\n` line ending). -/
def stripCR (l : List Char) : List Char :=
  match l.getLast? with
  | some c => if c = '\x0d' then l.dropLast else l
  | none => l

/-- Split a character list at every newline character; there is always at
least one (possibly empty) piece. -/
def linesAux : List Char → List (List Char)
  | [] => [[]]
  | c :: rest =>
    match linesAux rest with
    | [] => [[]]
    | l :: ls => if c = '\x0a' then [] :: l :: ls else (c :: l) :: ls

/-- Rust `str::lines()` as used by the crate (`content.lines()` and
`EMBEDDED_WORDLIST.lines()`): split at `\n`, drop the optional final line
ending, and strip the `\r` of a `\r\n` from every line that was terminated
by a newline. -/
def rustLines (s : String) : List String :=
  let ps := linesAux s.data
  match ps.getLast? with
  | some [] => (ps.dropLast.map stripCR).map String.mk
  | _ => ((ps.dropLast.map stripCR).map String.mk) ++
      (match ps.getLast? with
       | some l => [String.mk l]
       | none => [])

/-- `struct WordGenerator { slots: Vec<Slot>, word_list: Option<HashSet<String>> }`. -/
structure WordGenerator where
  slots : List Slot
  word_list : Option (Finset String)

/-- `WordGenerator::new(slots, word_list)`.  Modelled from the spec: the
crate resolves an absent word list to
`EMBEDDED_WORDLIST = include_str!("../data/words.txt")`, a large built-in
newline-delimited word list whose bundled data file is not among the
sources, so its contents are taken as the explicit parameter `embedded`;
apart from that parameter this is a direct translation of the source:
`None` becomes the set of lines of the embedded list, `Some(list)` is kept. -/
def WordGenerator.new (embedded : String) (slots : List Slot)
    (word_list : Option (Finset String)) : WordGenerator :=
  match word_list with
  | some list => { slots := slots, word_list := some list }
  | none => { slots := slots, word_list := some (rustLines embedded).toFinset }

/-- `WordGenerator::with_slots(slots)`: `Self::new(slots, None)` (the
`embedded` parameter stands for the bundled word-list file, as in `new`). -/
def WordGenerator.with_slots (embedded : String) (slots : List Slot) :
    WordGenerator :=
  WordGenerator.new embedded slots none

/-- `WordGenerator::with_no_filtering(slots)`: word list set to
`Some(HashSet::new())`, the explicitly empty set. -/
def WordGenerator.with_no_filtering (slots : List Slot) : WordGenerator :=
  { slots := slots, word_list := some ∅ }

/-- `WordGenerator::set_word_list(word_list)`: `self.word_list = Some(word_list)`. -/
def WordGenerator.set_word_list (g : WordGenerator) (word_list : Finset String) :
    WordGenerator :=
  { g with word_list := some word_list }

/-- `WordGenerator::load_word_list_from_file(&mut self, path)`.  The only
effect outside the generator is `std::fs::read_to_string(path)`, modelled by
the parameter `fs` (`.error` = unreadable source, carrying the I/O error
text).  On failure the `?` operator returns before any assignment, so the
generator is returned unchanged together with the `anyhow` error whose
context message is `format!("Failed to read word list from {}", path)`; on
success `word_list` becomes the set of lines of the file's contents. -/
def WordGenerator.load_word_list_from_file (g : WordGenerator)
    (fs : String → Except String String) (path : String) :
    WordGenerator × Except String Unit :=
  match fs path with
  | Except.error _ =>
    (g, Except.error (String.append "Failed to read word list from " path))
  | Except.ok content =>
    ({ g with word_list := some (rustLines content).toFinset }, Except.ok ())

/-- `WordGenerator::iter()`: a full run of `WordIter::new(self)`, which
starts from `current_indices = vec![0; slots.len()]`,
`slot_sizes = slots.map(len)`, `done = !has_options`. -/
def WordGenerator.iter (g : WordGenerator) : List String :=
  wordRunF g.slots g.word_list (g.slots.map (fun s => s.options.length))
    (prodList (g.slots.map (fun s => s.options.length)))
    (List.replicate g.slots.length 0)

/-- `WordGenerator::all_combinations()`: a full run of
`AllCombinationsIter::new(&self.slots)` from the all-zeros state. -/
def WordGenerator.all_combinations (g : WordGenerator) : List String :=
  allRunF g.slots (g.slots.map (fun s => s.options.length))
    (prodList (g.slots.map (fun s => s.options.length)))
    (List.replicate g.slots.length 0)

/-- The odometer-order sequence of index vectors for radices `ss`: the last
position varies fastest.  Closed form used to characterise the iterator. -/
def odoSeq : List Nat → List (List Nat)
  | [] => [[]]
  | s :: ss => (List.range s).flatMap (fun i => (odoSeq ss).map (fun is => i :: is))

/-- `allRunF` with the Rust indexing of `build_word` made explicit
(`build_wordOpt`): the run returns `none` iff some `next()` call would panic
with an index out of range. -/
def allRunSafe (slots : List Slot) (ss : List Nat) :
    Nat → List Nat → Option (List String)
  | 0, _ => some []
  | fuel + 1, is =>
    if validIdx ss is then
      (build_wordOpt slots is).bind (fun w =>
        (match odoInc ss is with
         | none => some []
         | some is' => allRunSafe slots ss fuel is').map (fun rest => w :: rest))
    else some []

/-- `wordRunF` with the Rust indexing of `build_word` made explicit:
`none` iff some loop iteration would panic with an index out of range. -/
def wordRunSafe (slots : List Slot) (wl : Option (Finset String)) (ss : List Nat) :
    Nat → List Nat → Option (List String)
  | 0, _ => some []
  | fuel + 1, is =>
    if validIdx ss is then
      (build_wordOpt slots is).bind (fun word =>
        (match odoInc ss is with
         | none => some []
         | some is' => wordRunSafe slots wl ss fuel is').map (fun rest =>
          match wl with
          | some R => if R = ∅ ∨ word ∈ R then word :: rest else rest
          | none => word :: rest))
    else some []

/-- `all_combinations()` with panics made explicit: `none` = a panic during
the run. -/
def WordGenerator.all_combinationsSafe (g : WordGenerator) : Option (List String) :=
  allRunSafe g.slots (g.slots.map (fun s => s.options.length))
    (prodList (g.slots.map (fun s => s.options.length)))
    (List.replicate g.slots.length 0)

/-- `iter()` with panics made explicit: `none` = a panic during the run. -/
def WordGenerator.iterSafe (g : WordGenerator) : Option (List String) :=
  wordRunSafe g.slots g.word_list (g.slots.map (fun s => s.options.length))
    (prodList (g.slots.map (fun s => s.options.length)))
    (List.replicate g.slots.length 0)

/-! ## Helper lemmas -/

@[simp] theorem prodList_nil : prodList [] = 1 := rfl

@[simp] theorem prodList_cons (s : Nat) (ss : List Nat) :
    prodList (s :: ss) = s * prodList ss := rfl

theorem prodList_eq_zero {ss : List Nat} (h : 0 ∈ ss) : prodList ss = 0 := by
  induction ss with
  | nil => simp at h
  | cons s ss ih =>
    rw [List.mem_cons] at h
    rcases h with h | h
    · simp [← h]
    · simp [ih h]

theorem validIdx_map_zero : ∀ (ss is : List Nat), validIdx ss is = true →
    validIdx ss (is.map (fun _ => 0)) = true
  | [], [], _ => rfl
  | s :: ss, i :: is, h => by
    simp only [validIdx, Bool.and_eq_true, decide_eq_true_eq] at h
    simp only [List.map_cons, validIdx, Bool.and_eq_true, decide_eq_true_eq]
    exact ⟨Nat.lt_of_le_of_lt (Nat.zero_le i) h.1, validIdx_map_zero ss is h.2⟩
  | [], _ :: _, h => by simp [validIdx] at h
  | _ :: _, [], h => by simp [validIdx] at h

theorem odoValue_map_zero : ∀ (ss is : List Nat),
    odoValue ss (is.map (fun _ => 0)) = 0
  | [], _ => rfl
  | _ :: _, [] => rfl
  | s :: ss, i :: is => by
    simp only [List.map_cons, odoValue, odoValue_map_zero ss is]
    omega

theorem odoValue_replicate : ∀ (ss : List Nat) (n : Nat),
    odoValue ss (List.replicate n 0) = 0
  | [], _ => rfl
  | _ :: _, 0 => rfl
  | s :: ss, n + 1 => by
    simp [List.replicate, odoValue, odoValue_replicate ss n]

theorem validIdx_replicate : ∀ (ss : List Nat),
    validIdx ss (List.replicate ss.length 0) = ss.all (fun s => decide (0 < s))
  | [] => rfl
  | s :: ss => by
    simp only [List.length_cons, List.replicate, validIdx, List.all_cons]
    rw [validIdx_replicate ss]

theorem odoValue_lt_prod : ∀ (ss is : List Nat), validIdx ss is = true →
    odoValue ss is < prodList ss
  | [], [], _ => Nat.zero_lt_one
  | [], _ :: _, h => by simp [validIdx] at h
  | _ :: _, [], h => by simp [validIdx] at h
  | s :: ss, i :: is, h => by
    simp only [validIdx, Bool.and_eq_true, decide_eq_true_eq] at h
    have ih := odoValue_lt_prod ss is h.2
    simp only [odoValue, prodList_cons]
    calc i * prodList ss + odoValue ss is
        < i * prodList ss + prodList ss := Nat.add_lt_add_left ih _
      _ = (i + 1) * prodList ss := (Nat.succ_mul i (prodList ss)).symm
      _ ≤ s * prodList ss := Nat.mul_le_mul_right _ h.1

/-- `increment` adds exactly 1 to the mixed-radix value and preserves
validity; when it overflows (`none`) the state was the last one. -/
theorem odoInc_spec : ∀ (ss is : List Nat), validIdx ss is = true →
    (∀ is', odoInc ss is = some is' →
      validIdx ss is' = true ∧ odoValue ss is' = odoValue ss is + 1) ∧
    (odoInc ss is = none → odoValue ss is + 1 = prodList ss)
  | [], [], _ => by
    refine ⟨fun is' h => by simp [odoInc] at h, fun _ => rfl⟩
  | [], _ :: _, h => by simp [validIdx] at h
  | _ :: _, [], h => by simp [validIdx] at h
  | s :: ss, i :: is, h => by
    simp only [validIdx, Bool.and_eq_true, decide_eq_true_eq] at h
    have ih := odoInc_spec ss is h.2
    constructor
    · intro is' hinc
      simp only [odoInc] at hinc
      cases h2 : odoInc ss is with
      | some is0 =>
        rw [h2] at hinc
        cases hinc
        have := ih.1 is0 h2
        refine ⟨?_, ?_⟩
        · simp only [validIdx, Bool.and_eq_true, decide_eq_true_eq]
          exact ⟨h.1, this.1⟩
        · simp only [odoValue, this.2]
          omega
      | none =>
        rw [h2] at hinc
        by_cases hs : i + 1 < s
        · rw [if_pos hs] at hinc
          cases hinc
          have hlast := ih.2 h2
          refine ⟨?_, ?_⟩
          · simp only [validIdx, Bool.and_eq_true, decide_eq_true_eq]
            exact ⟨hs, validIdx_map_zero ss is h.2⟩
          · simp only [odoValue, odoValue_map_zero, Nat.succ_mul]
            omega
        · rw [if_neg hs] at hinc
          cases hinc
    · intro hinc
      simp only [odoInc] at hinc
      cases h2 : odoInc ss is with
      | some is0 => rw [h2] at hinc; cases hinc
      | none =>
        rw [h2] at hinc
        by_cases hs : i + 1 < s
        · rw [if_pos hs] at hinc; cases hinc
        · have hlast := ih.2 h2
          have hi : i + 1 = s := by omega
          simp only [odoValue, prodList_cons, ← hi, Nat.succ_mul]
          omega

theorem sum_map_const {α : Type _} : ∀ (l : List α) (P : Nat),
    (l.map (fun _ => P)).sum = l.length * P
  | [], _ => by simp
  | a :: l, P => by
    simp only [List.map_cons, List.sum_cons, sum_map_const l P, List.length_cons,
      Nat.succ_mul]
    omega

theorem odoSeq_length : ∀ (ss : List Nat), (odoSeq ss).length = prodList ss
  | [] => rfl
  | s :: ss => by
    simp only [odoSeq, List.length_flatMap, Function.comp_def, List.length_map,
      odoSeq_length ss, sum_map_const, List.length_range, prodList_cons]

theorem mem_odoSeq_length : ∀ (ss is : List Nat), is ∈ odoSeq ss →
    is.length = ss.length
  | [], is, h => by
    simp only [odoSeq, List.mem_singleton] at h
    simp [h]
  | s :: ss, is, h => by
    simp only [odoSeq, List.mem_flatMap, List.mem_map] at h
    obtain ⟨i, _, is0, his0, rfl⟩ := h
    simp [mem_odoSeq_length ss is0 his0]

theorem flatMap_getElem? {α β : Type _} (g : α → List β) (P : Nat) :
    ∀ (l : List α) (i : Nat) (hi : i < l.length) (v : Nat),
      (∀ a ∈ l, (g a).length = P) → v < P →
      (l.flatMap g)[i * P + v]? = (g l[i])[v]?
  | [], i, hi, _, _, _ => absurd hi (by simp)
  | a :: l, 0, hi, v, hlen, hv => by
    have h1 : (g a).length = P := hlen a (by simp)
    simp only [List.flatMap_cons, Nat.zero_mul, Nat.zero_add]
    rw [List.getElem?_append, if_pos (by rw [h1]; exact hv)]
    rfl
  | a :: l, i + 1, hi, v, hlen, hv => by
    have h1 : (g a).length = P := hlen a (by simp)
    simp only [List.flatMap_cons, List.getElem_cons_succ]
    rw [List.getElem?_append_right (by rw [h1, Nat.succ_mul]; omega)]
    have h2 : (i + 1) * P + v - (g a).length = i * P + v := by
      rw [h1, Nat.succ_mul]; omega
    rw [h2]
    exact flatMap_getElem? g P l i (by simpa using hi) v
      (fun b hb => hlen b (by simp [hb])) hv

theorem odoSeq_getElem? : ∀ (ss is : List Nat), validIdx ss is = true →
    (odoSeq ss)[odoValue ss is]? = some is
  | [], [], _ => rfl
  | [], _ :: _, h => by simp [validIdx] at h
  | _ :: _, [], h => by simp [validIdx] at h
  | s :: ss, i :: is, h => by
    simp only [validIdx, Bool.and_eq_true, decide_eq_true_eq] at h
    have hv := odoValue_lt_prod ss is h.2
    have hi : i < (List.range s).length := by simpa [List.length_range] using h.1
    have hblock := flatMap_getElem? (fun j => (odoSeq ss).map (fun is0 => j :: is0))
      (prodList ss) (List.range s) i hi (odoValue ss is)
      (fun a _ => by rw [List.length_map, odoSeq_length]) hv
    simp only [odoSeq, odoValue]
    rw [hblock, List.getElem_range, List.getElem?_map,
      odoSeq_getElem? ss is h.2]
    rfl

theorem odoSeq_drop_cons (ss is : List Nat) (h : validIdx ss is = true) :
    (odoSeq ss).drop (odoValue ss is)
      = is :: (odoSeq ss).drop (odoValue ss is + 1) := by
  have hget := odoSeq_getElem? ss is h
  rw [List.getElem?_eq_some_iff] at hget
  obtain ⟨hlt, heq⟩ := hget
  rw [List.drop_eq_getElem_cons hlt, heq]

theorem allRunF_invalid (slots : List Slot) (ss : List Nat) (fuel : Nat)
    (is : List Nat) (h : validIdx ss is = false) :
    allRunF slots ss fuel is = [] := by
  cases fuel with
  | zero => rfl
  | succ fuel => simp [allRunF, h]

/-- The full-run characterisation of `AllCombinationsIter`: from a valid
state, with fuel at least the number of remaining steps, the run emits
`build_word` at exactly the remaining odometer-order index vectors. -/
theorem allRunF_char : ∀ (fuel : Nat) (slots : List Slot) (ss is : List Nat),
    validIdx ss is = true → prodList ss - odoValue ss is ≤ fuel →
    allRunF slots ss fuel is
      = ((odoSeq ss).drop (odoValue ss is)).map (build_word slots)
  | 0, slots, ss, is, hval, hfuel => by
    exfalso
    have := odoValue_lt_prod ss is hval
    omega
  | fuel + 1, slots, ss, is, hval, hfuel => by
    rw [odoSeq_drop_cons ss is hval]
    cases h2 : odoInc ss is with
    | none =>
      have hend := (odoInc_spec ss is hval).2 h2
      simp only [allRunF, hval, if_true, h2, List.map_cons]
      rw [show odoValue ss is + 1 = (odoSeq ss).length from by
        rw [odoSeq_length]; omega]
      rw [List.drop_length]
      rfl
    | some is' =>
      have hs := (odoInc_spec ss is hval).1 is' h2
      simp only [allRunF, hval, if_true, h2, List.map_cons]
      rw [allRunF_char fuel slots ss is' hs.1 (by omega), hs.2]

/-- With every slot non-empty, `all_combinations()` is exactly the
odometer-order Cartesian product. -/
theorem all_combinations_eq_odoSeq (slots : List Slot) (wl : Option (Finset String))
    (hpos : ∀ s ∈ slots, 0 < s.options.length) :
    (WordGenerator.mk slots wl).all_combinations
      = (odoSeq (slots.map (fun s => s.options.length))).map (build_word slots) := by
  have hval : validIdx (slots.map (fun s => s.options.length))
      (List.replicate slots.length 0) = true := by
    rw [show slots.length = (slots.map (fun s => s.options.length)).length by simp]
    rw [validIdx_replicate]
    simp only [List.all_eq_true, List.mem_map, decide_eq_true_eq]
    rintro x ⟨s, hs, rfl⟩
    exact hpos s hs
  show allRunF slots (slots.map (fun s => s.options.length))
      (prodList (slots.map (fun s => s.options.length)))
      (List.replicate slots.length 0) = _
  rw [allRunF_char _ slots _ _ hval (by rw [odoValue_replicate]; omega),
    odoValue_replicate, List.drop_zero]

/-- With some slot empty, `done` is set at construction and
`all_combinations()` emits nothing. -/
theorem all_combinations_degenerate (slots : List Slot) (wl : Option (Finset String))
    (h : ∃ s ∈ slots, s.options.length = 0) :
    (WordGenerator.mk slots wl).all_combinations = [] := by
  apply allRunF_invalid
  rw [show slots.length = (slots.map (fun s => s.options.length)).length by simp]
  rw [validIdx_replicate]
  rcases h with ⟨s, hs, h0⟩
  simp only [List.all_eq_false, List.mem_map, decide_eq_true_eq]
  exact ⟨s.options.length, ⟨s, hs, rfl⟩, by omega⟩

theorem wordRunF_none : ∀ (fuel : Nat) (slots : List Slot) (ss is : List Nat),
    wordRunF slots none ss fuel is = allRunF slots ss fuel is
  | 0, _, _, _ => rfl
  | fuel + 1, slots, ss, is => by
    cases hval : validIdx ss is with
    | false => simp [wordRunF, allRunF, hval]
    | true =>
      cases h2 : odoInc ss is with
      | none => simp [wordRunF, allRunF, hval, h2]
      | some is' =>
        simp [wordRunF, allRunF, hval, h2, wordRunF_none fuel slots ss is']

/-- The present-and-empty word set is a no-op filter: the `WordIter` run is
the `AllCombinationsIter` run, item for item. -/
theorem wordRunF_empty_set : ∀ (fuel : Nat) (slots : List Slot) (ss is : List Nat),
    wordRunF slots (some ∅) ss fuel is = allRunF slots ss fuel is
  | 0, _, _, _ => rfl
  | fuel + 1, slots, ss, is => by
    cases hval : validIdx ss is with
    | false => simp [wordRunF, allRunF, hval]
    | true =>
      cases h2 : odoInc ss is with
      | none => simp [wordRunF, allRunF, hval, h2]
      | some is' =>
        simp [wordRunF, allRunF, hval, h2, wordRunF_empty_set fuel slots ss is']

/-- With a non-empty word set `R`, the `WordIter` run is the membership
filter of the `AllCombinationsIter` run. -/
theorem wordRunF_filter : ∀ (fuel : Nat) (slots : List Slot) (R : Finset String)
    (ss is : List Nat), R ≠ ∅ →
    wordRunF slots (some R) ss fuel is
      = (allRunF slots ss fuel is).filter (fun w => decide (w ∈ R))
  | 0, _, _, _, _, _ => rfl
  | fuel + 1, slots, R, ss, is, hR => by
    cases hval : validIdx ss is with
    | false => simp [wordRunF, allRunF, hval]
    | true =>
      cases h2 : odoInc ss is with
      | none =>
        by_cases hw : build_word slots is ∈ R
        · simp [wordRunF, allRunF, hval, h2, hw, hR]
        · simp [wordRunF, allRunF, hval, h2, hw, hR]
      | some is' =>
        by_cases hw : build_word slots is ∈ R
        · simp [wordRunF, allRunF, hval, h2, hw, hR,
            wordRunF_filter fuel slots R ss is' hR]
        · simp [wordRunF, allRunF, hval, h2, hw, hR,
            wordRunF_filter fuel slots R ss is' hR]

theorem build_word_length (slots : List Slot) (is : List Nat) :
    (build_word slots is).length = is.length := by
  simp [build_word, String.length, List.enum_length]

/-- A generator whose word list is the explicit empty set filters nothing:
`iter()` equals `all_combinations()`. -/
theorem iter_eq_all_of_empty (g : WordGenerator) (h : g.word_list = some ∅) :
    g.iter = g.all_combinations := by
  unfold WordGenerator.iter WordGenerator.all_combinations
  rw [h, wordRunF_empty_set]

/-- A generator whose word list is a non-empty set `R` yields exactly the
members of `R`, in enumeration order. -/
theorem iter_eq_filter (g : WordGenerator) (R : Finset String)
    (h : g.word_list = some R) (hR : R ≠ ∅) :
    g.iter = g.all_combinations.filter (fun w => decide (w ∈ R)) := by
  unfold WordGenerator.iter WordGenerator.all_combinations
  rw [h, wordRunF_filter _ _ _ _ _ hR]

/-! ## The claims -/

/-- Claim C1: for the slot configuration `[{c,b,r}, {a,i,o}, {t,s,e}]`, the
unfiltered enumeration (`all_combinations`) emits strings in odometer order
with the last slot varying fastest: the first three outputs are "cat",
"cas", "cae", the sequence contains exactly 27 items, and the last item is
"roe". -/
theorem C1_odometer_order :
    ((WordGenerator.with_no_filtering
        [Slot.new ['c', 'b', 'r'], Slot.new ['a', 'i', 'o'],
          Slot.new ['t', 's', 'e']]).all_combinations.take 3
        = ["cat", "cas", "cae"])
      ∧ (WordGenerator.with_no_filtering
          [Slot.new ['c', 'b', 'r'], Slot.new ['a', 'i', 'o'],
            Slot.new ['t', 's', 'e']]).all_combinations.length = 27
      ∧ (WordGenerator.with_no_filtering
          [Slot.new ['c', 'b', 'r'], Slot.new ['a', 'i', 'o'],
            Slot.new ['t', 's', 'e']]).all_combinations.getLast?
        = some "roe" := by
  refine ⟨rfl, rfl, rfl⟩

/-- Claim C2: for every slot configuration with at least one slot, the
unfiltered enumeration yields exactly `n0 * n1 * ... * nk` strings (the
product of the candidate counts), every yielded string has one character
per slot, and if any slot has zero candidates the enumeration is empty. -/
theorem C2_cardinality (slots : List Slot) (wl : Option (Finset String))
    (_hne : slots ≠ []) :
    (WordGenerator.mk slots wl).all_combinations.length
        = prodList (slots.map (fun s => s.options.length))
      ∧ (∀ w ∈ (WordGenerator.mk slots wl).all_combinations,
          w.length = slots.length)
      ∧ ((∃ s ∈ slots, s.options.length = 0) →
          (WordGenerator.mk slots wl).all_combinations = []) := by
  by_cases hpos : ∀ s ∈ slots, 0 < s.options.length
  · have heq := all_combinations_eq_odoSeq slots wl hpos
    refine ⟨?_, ?_, ?_⟩
    · rw [heq, List.length_map, odoSeq_length]
    · intro w hw
      rw [heq] at hw
      obtain ⟨is, his, rfl⟩ := List.mem_map.mp hw
      rw [build_word_length, mem_odoSeq_length _ _ his, List.length_map]
    · rintro ⟨s, hs, h0⟩
      exact absurd (hpos s hs) (by omega)
  · push_neg at hpos
    obtain ⟨s, hs, h0⟩ := hpos
    have h0 : s.options.length = 0 := by omega
    have heq := all_combinations_degenerate slots wl ⟨s, hs, h0⟩
    refine ⟨?_, ?_, fun _ => heq⟩
    · rw [heq, prodList_eq_zero (List.mem_map.mpr ⟨s, hs, h0⟩)]
      rfl
    · intro w hw
      rw [heq] at hw
      simp at hw

theorem C2_cardinality_witness :
    ([Slot.new ['a', 'b'], Slot.new ['c']] ≠ ([] : List Slot))
      ∧ ((WordGenerator.mk [Slot.new ['a', 'b'], Slot.new ['c']] none).all_combinations.length
          = prodList ([Slot.new ['a', 'b'], Slot.new ['c']].map (fun s => s.options.length))
        ∧ (∀ w ∈ (WordGenerator.mk [Slot.new ['a', 'b'], Slot.new ['c']] none).all_combinations,
            w.length = [Slot.new ['a', 'b'], Slot.new ['c']].length)
        ∧ ((∃ s ∈ [Slot.new ['a', 'b'], Slot.new ['c']], s.options.length = 0) →
            (WordGenerator.mk [Slot.new ['a', 'b'], Slot.new ['c']] none).all_combinations
              = [])) :=
  ⟨by decide, C2_cardinality [Slot.new ['a', 'b'], Slot.new ['c']] none (by decide)⟩

/-- Claim C3: a generator constructed with an explicitly empty reference
set (`with_no_filtering`, or `new` with `Some(empty set)`) produces via
`iter()` exactly the same ordered sequence of strings as the unfiltered
`all_combinations()` of the same slots. -/
theorem C3_empty_set_is_no_op_filter (slots : List Slot) (embedded : String) :
    (WordGenerator.with_no_filtering slots).iter
        = (WordGenerator.with_no_filtering slots).all_combinations
      ∧ (WordGenerator.new embedded slots (some ∅)).iter
        = (WordGenerator.new embedded slots (some ∅)).all_combinations :=
  ⟨iter_eq_all_of_empty _ rfl, iter_eq_all_of_empty _ rfl⟩

/-- Claim C4: for every non-empty reference set `R`, the filtered iterator
yields exactly the subsequence of the unfiltered odometer-order sequence
consisting of the members of `R` (order and multiplicity preserved); in
particular every yielded string is in `R` and in the unfiltered
enumeration. -/
theorem C4_filtered_is_member_subsequence (R : Finset String) (slots : List Slot)
    (hR : R ≠ ∅) :
    (WordGenerator.mk slots (some R)).iter
        = (WordGenerator.mk slots (some R)).all_combinations.filter
            (fun w => decide (w ∈ R))
      ∧ (∀ w ∈ (WordGenerator.mk slots (some R)).iter,
          w ∈ R ∧ w ∈ (WordGenerator.mk slots (some R)).all_combinations)
      ∧ (WordGenerator.mk slots (some R)).iter.Sublist
          (WordGenerator.mk slots (some R)).all_combinations := by
  have heq := iter_eq_filter (WordGenerator.mk slots (some R)) R rfl hR
  refine ⟨heq, ?_, ?_⟩
  · intro w hw
    rw [heq] at hw
    have hmem := List.mem_filter.mp hw
    exact ⟨by simpa using hmem.2, hmem.1⟩
  · rw [heq]
    exact List.filter_sublist _

theorem C4_filtered_is_member_subsequence_witness :
    (({"cat", "dog"} : Finset String) ≠ ∅)
      ∧ ((WordGenerator.mk
            [Slot.new ['c', 'd'], Slot.new ['a', 'o'], Slot.new ['t', 'g']]
            (some {"cat", "dog"})).iter
          = (WordGenerator.mk
              [Slot.new ['c', 'd'], Slot.new ['a', 'o'], Slot.new ['t', 'g']]
              (some {"cat", "dog"})).all_combinations.filter
              (fun w => decide (w ∈ ({"cat", "dog"} : Finset String)))
        ∧ (∀ w ∈ (WordGenerator.mk
              [Slot.new ['c', 'd'], Slot.new ['a', 'o'], Slot.new ['t', 'g']]
              (some {"cat", "dog"})).iter,
            w ∈ ({"cat", "dog"} : Finset String)
              ∧ w ∈ (WordGenerator.mk
                  [Slot.new ['c', 'd'], Slot.new ['a', 'o'], Slot.new ['t', 'g']]
                  (some {"cat", "dog"})).all_combinations)
        ∧ (WordGenerator.mk
            [Slot.new ['c', 'd'], Slot.new ['a', 'o'], Slot.new ['t', 'g']]
            (some {"cat", "dog"})).iter.Sublist
            (WordGenerator.mk
              [Slot.new ['c', 'd'], Slot.new ['a', 'o'], Slot.new ['t', 'g']]
              (some {"cat", "dog"})).all_combinations) :=
  ⟨by decide,
    C4_filtered_is_member_subsequence {"cat", "dog"}
      [Slot.new ['c', 'd'], Slot.new ['a', 'o'], Slot.new ['t', 'g']] (by decide)⟩

/-- Claim C6: for a generator constructed from zero slots, the unfiltered
enumeration yields exactly one string, the empty string, and then is
exhausted (the product of no factors being 1). -/
theorem C6_zero_slots_one_empty_string (wl : Option (Finset String)) :
    (WordGenerator.mk [] wl).all_combinations = [""] := rfl

/-- Claim C5: a generator constructed with no reference list (`new` with
`None`, or `with_slots`) resolves the absent list at construction to the
set of lines of the built-in embedded word list, and thereafter `iter()`
yields a candidate iff it is present in that list (the embedded list being
non-empty). -/
theorem C5_absent_list_resolves_to_embedded (embedded : String) (slots : List Slot) :
    (WordGenerator.new embedded slots none).word_list
        = some (rustLines embedded).toFinset
      ∧ WordGenerator.with_slots embedded slots
        = WordGenerator.new embedded slots none
      ∧ ((rustLines embedded).toFinset ≠ ∅ →
          (WordGenerator.new embedded slots none).iter
            = (WordGenerator.new embedded slots none).all_combinations.filter
                (fun w => decide (w ∈ (rustLines embedded).toFinset))) :=
  ⟨rfl, rfl, fun h => iter_eq_filter _ _ rfl h⟩

theorem C5_absent_list_resolves_to_embedded_witness :
    ((rustLines "cat\ndog").toFinset ≠ ∅)
      ∧ (WordGenerator.new "cat\ndog"
            [Slot.new ['c', 'd'], Slot.new ['a', 'o'], Slot.new ['t', 'g']]
            none).iter
        = (WordGenerator.new "cat\ndog"
            [Slot.new ['c', 'd'], Slot.new ['a', 'o'], Slot.new ['t', 'g']]
            none).all_combinations.filter
            (fun w => decide (w ∈ (rustLines "cat\ndog").toFinset)) :=
  ⟨by decide,
    (C5_absent_list_resolves_to_embedded "cat\ndog"
      [Slot.new ['c', 'd'], Slot.new ['a', 'o'], Slot.new ['t', 'g']]).2.2
      (by decide)⟩

/-- Claim C7: `load_word_list_from_file` returns, when the source is
unreadable, an error whose context message names the failed path
(`format!("Failed to read word list from {}", path)`), leaving the
generator — its word-list filter state and its slots — unchanged; on
success it replaces the active filter set with exactly the set of lines of
the file. -/
theorem C7_load_error_leaves_state_unchanged (g : WordGenerator)
    (fs : String → Except String String) (path : String) :
    (∀ e, fs path = Except.error e →
        g.load_word_list_from_file fs path
          = (g, Except.error
              (String.append "Failed to read word list from " path)))
      ∧ (∀ content, fs path = Except.ok content →
          g.load_word_list_from_file fs path
            = ({ slots := g.slots,
                 word_list := some (rustLines content).toFinset },
               Except.ok ())) := by
  constructor
  · intro e he
    unfold WordGenerator.load_word_list_from_file
    rw [he]
  · intro content hc
    unfold WordGenerator.load_word_list_from_file
    rw [hc]

theorem C7_load_error_leaves_state_unchanged_witness :
    ((WordGenerator.mk [Slot.new ['a']] (some ∅)).load_word_list_from_file
        (fun _ => Except.error "denied") "words.txt"
        = (WordGenerator.mk [Slot.new ['a']] (some ∅),
           Except.error
             (String.append "Failed to read word list from " "words.txt")))
      ∧ ((WordGenerator.mk [Slot.new ['a']] (some ∅)).load_word_list_from_file
          (fun _ => Except.ok "cat") "words.txt"
          = ({ slots := [Slot.new ['a']],
               word_list := some (rustLines "cat").toFinset },
             Except.ok ())) :=
  ⟨(C7_load_error_leaves_state_unchanged (WordGenerator.mk [Slot.new ['a']] (some ∅))
      (fun _ => Except.error "denied") "words.txt").1 "denied" rfl,
   (C7_load_error_leaves_state_unchanged (WordGenerator.mk [Slot.new ['a']] (some ∅))
      (fun _ => Except.ok "cat") "words.txt").2 "cat" rfl⟩

/-- Claim C9 (invariant): every generator produced or mutated through the
public API (`new`, `with_slots`, `with_no_filtering`, `set_word_list`,
successful `load_word_list_from_file`) has a present word list (the
internal option is always `Some`), and a failed load preserves it; so the
`None` branch of `WordIter::next` that yields unconditionally is
unreachable for such generators, and the only unfiltered `iter()` output
comes from the empty-set sentinel. -/
theorem C9_word_list_always_present (embedded : String) (slots : List Slot)
    (wl : Option (Finset String)) (R : Finset String) (g : WordGenerator)
    (fs : String → Except String String) (path : String) :
    (WordGenerator.new embedded slots wl).word_list.isSome = true
      ∧ (WordGenerator.with_slots embedded slots).word_list.isSome = true
      ∧ (WordGenerator.with_no_filtering slots).word_list.isSome = true
      ∧ (g.set_word_list R).word_list.isSome = true
      ∧ (∀ content, fs path = Except.ok content →
          ((g.load_word_list_from_file fs path).1).word_list.isSome = true)
      ∧ (g.word_list.isSome = true →
          ((g.load_word_list_from_file fs path).1).word_list.isSome = true) := by
  refine ⟨?_, rfl, rfl, rfl, ?_, ?_⟩
  · cases wl <;> rfl
  · intro content hc
    unfold WordGenerator.load_word_list_from_file
    rw [hc]
    rfl
  · intro hg
    unfold WordGenerator.load_word_list_from_file
    cases hfs : fs path with
    | error e => simpa using hg
    | ok content => rfl

theorem C9_word_list_always_present_witness :
    (((WordGenerator.mk [] (some ∅)).load_word_list_from_file
        (fun _ => Except.ok "a") "p").1).word_list.isSome = true
      ∧ (((WordGenerator.mk [] (some ∅)).load_word_list_from_file
          (fun _ => Except.error "e") "p").1).word_list.isSome = true :=
  ⟨(C9_word_list_always_present "x" [] none ∅ (WordGenerator.mk [] (some ∅))
      (fun _ => Except.ok "a") "p").2.2.2.2.1 "a" rfl,
   (C9_word_list_always_present "x" [] none ∅ (WordGenerator.mk [] (some ∅))
      (fun _ => Except.error "e") "p").2.2.2.2.2 rfl⟩

/-- Claim C10: loading a readable file with empty content succeeds and
installs the empty set as the active filter, which by the empty-set
sentinel silently disables filtering: the subsequent `iter()` yields every
combination rather than none. -/
theorem C10_empty_file_installs_no_op_filter (g : WordGenerator)
    (fs : String → Except String String) (path : String)
    (h : fs path = Except.ok "") :
    ((g.load_word_list_from_file fs path).2 = Except.ok ())
      ∧ ((g.load_word_list_from_file fs path).1).word_list = some ∅
      ∧ ((g.load_word_list_from_file fs path).1).iter
        = ((g.load_word_list_from_file fs path).1).all_combinations := by
  have hload : g.load_word_list_from_file fs path
      = ({ slots := g.slots, word_list := some ∅ }, Except.ok ()) := by
    unfold WordGenerator.load_word_list_from_file
    rw [h]
    rfl
  rw [hload]
  exact ⟨rfl, rfl, iter_eq_all_of_empty _ rfl⟩

theorem C10_empty_file_installs_no_op_filter_witness :
    (((WordGenerator.mk [Slot.new ['a', 'b']] none).load_word_list_from_file
        (fun _ => Except.ok "") "w").2 = Except.ok ())
      ∧ (((WordGenerator.mk [Slot.new ['a', 'b']] none).load_word_list_from_file
          (fun _ => Except.ok "") "w").1).word_list = some ∅
      ∧ (((WordGenerator.mk [Slot.new ['a', 'b']] none).load_word_list_from_file
          (fun _ => Except.ok "") "w").1).iter
        = (((WordGenerator.mk [Slot.new ['a', 'b']] none).load_word_list_from_file
            (fun _ => Except.ok "") "w").1).all_combinations :=
  C10_empty_file_installs_no_op_filter (WordGenerator.mk [Slot.new ['a', 'b']] none)
    (fun _ => Except.ok "") "w" rfl

/-- On a valid state, `build_word`'s two Rust indexing operations are in
range: the `Option`-explicit version succeeds and agrees with `build_word`.
Generalised over the starting position `n` of `enumerate`. -/
theorem build_word_enumFrom (slots : List Slot) :
    ∀ (is : List Nat) (n : Nat),
      validIdx ((slots.drop n).map (fun s => s.options.length)) is = true →
      optList ((is.enumFrom n).map
          (fun p => (slots.get? p.1).bind (fun sl => sl.options.get? p.2)))
        = some ((is.enumFrom n).map
            (fun p => ((slots.getD p.1 (Slot.new [])).options).getD p.2 ' '))
  | [], _, _ => rfl
  | i :: is, n, h => by
    cases hd : slots.drop n with
    | nil =>
      rw [hd] at h
      simp [validIdx] at h
    | cons sl t =>
      rw [hd] at h
      simp only [List.map_cons, validIdx, Bool.and_eq_true, decide_eq_true_eq] at h
      have ht : slots.drop (n + 1) = t := by
        rw [← List.tail_drop, hd]
        rfl
      have hget : slots[n]? = some sl := by
        rw [← List.head?_drop, hd]
        rfl
      have hslget : slots.get? n = some sl := by
        rw [List.get?_eq_getElem?, hget]
      have hoget : sl.options.get? i = some (sl.options.getD i ' ') := by
        rw [List.get?_eq_getElem?, List.getD_eq_getElem?_getD,
          List.getElem?_eq_getElem h.1]
        rfl
      have hsl : slots.getD n (Slot.new []) = sl := by
        rw [List.getD_eq_getElem?_getD, hget]
        rfl
      have hf : (slots.get? n).bind (fun sl2 => sl2.options.get? i)
          = some (((slots.getD n (Slot.new [])).options).getD i ' ') := by
        rw [hslget, hsl]
        simpa using hoget
      have ih := build_word_enumFrom slots is (n + 1) (by rw [ht]; exact h.2)
      simp only [List.enumFrom_cons, List.map_cons, optList, hf, ih]

theorem build_wordOpt_of_valid (slots : List Slot) (is : List Nat)
    (h : validIdx (slots.map (fun s => s.options.length)) is = true) :
    build_wordOpt slots is = some (build_word slots is) := by
  unfold build_wordOpt build_word
  rw [show is.enum = is.enumFrom 0 from rfl]
  rw [build_word_enumFrom slots is 0 (by simpa using h)]
  rfl

/-- A full `AllCombinationsIter` run never panics: the `Option`-explicit
run succeeds and computes the same list. -/
theorem allRunSafe_eq : ∀ (fuel : Nat) (slots : List Slot) (is : List Nat),
    allRunSafe slots (slots.map (fun s => s.options.length)) fuel is
      = some (allRunF slots (slots.map (fun s => s.options.length)) fuel is)
  | 0, _, _ => rfl
  | fuel + 1, slots, is => by
    cases hval : validIdx (slots.map (fun s => s.options.length)) is with
    | false => simp [allRunSafe, allRunF, hval]
    | true =>
      have hbw := build_wordOpt_of_valid slots is hval
      cases h2 : odoInc (slots.map (fun s => s.options.length)) is with
      | none => simp [allRunSafe, allRunF, hval, h2, hbw]
      | some is' =>
        simp [allRunSafe, allRunF, hval, h2, hbw, allRunSafe_eq fuel slots is']

/-- A full `WordIter` run never panics: the `Option`-explicit run succeeds
and computes the same list. -/
theorem wordRunSafe_eq : ∀ (fuel : Nat) (slots : List Slot)
    (wl : Option (Finset String)) (is : List Nat),
    wordRunSafe slots wl (slots.map (fun s => s.options.length)) fuel is
      = some (wordRunF slots wl (slots.map (fun s => s.options.length)) fuel is)
  | 0, _, _, _ => rfl
  | fuel + 1, slots, wl, is => by
    cases hval : validIdx (slots.map (fun s => s.options.length)) is with
    | false => simp [wordRunSafe, wordRunF, hval]
    | true =>
      have hbw := build_wordOpt_of_valid slots is hval
      cases h2 : odoInc (slots.map (fun s => s.options.length)) is with
      | none => cases wl <;> simp [wordRunSafe, wordRunF, hval, h2, hbw]
      | some is' =>
        cases wl <;>
          simp [wordRunSafe, wordRunF, hval, h2, hbw,
            wordRunSafe_eq fuel slots _ is']

/-- Claim C8, counterexample: dereferencing a slot with zero candidates —
or converting it to a `String` — executes `self.options[self.current]` on
an empty vector and panics with an index out of range (`none` models the
panic), so the claim that every public operation on every accepted input
shape (explicitly including slots with zero candidates) completes without
panicking is false. -/
theorem C8_counterexample_empty_slot_deref_panics :
    (Slot.new []).deref = none ∧ (Slot.new []).intoString = none :=
  ⟨rfl, rfl⟩

/-- Claim C8 (amended): construction and iteration never panic — for every
slot configuration (including empty-option slots and duplicates) and every
word-list state, full runs of `all_combinations()` and `iter()` perform
only in-range indexing — and `Deref`/`String` conversion of a freshly
constructed slot is panic-free whenever the slot has at least one
candidate; it panics exactly on a zero-candidate slot. -/
theorem C8_no_panics_amended (slots : List Slot) (wl : Option (Finset String))
    (opts : List Char) (hopts : opts ≠ []) :
    (WordGenerator.mk slots wl).all_combinationsSafe
        = some ((WordGenerator.mk slots wl).all_combinations)
      ∧ (WordGenerator.mk slots wl).iterSafe
        = some ((WordGenerator.mk slots wl).iter)
      ∧ ((Slot.new opts).deref).isSome = true
      ∧ ((Slot.new opts).intoString).isSome = true := by
  refine ⟨allRunSafe_eq _ slots _, wordRunSafe_eq _ slots wl _, ?_, ?_⟩
  · cases opts with
    | nil => exact absurd rfl hopts
    | cons c cs => rfl
  · cases opts with
    | nil => exact absurd rfl hopts
    | cons c cs => rfl

theorem C8_no_panics_amended_witness :
    (['a'] ≠ ([] : List Char))
      ∧ ((WordGenerator.mk [Slot.new []] none).all_combinationsSafe
          = some ((WordGenerator.mk [Slot.new []] none).all_combinations)
        ∧ (WordGenerator.mk [Slot.new []] none).iterSafe
          = some ((WordGenerator.mk [Slot.new []] none).iter)
        ∧ ((Slot.new ['a']).deref).isSome = true
        ∧ ((Slot.new ['a']).intoString).isSome = true) :=
  ⟨by decide, C8_no_panics_amended [Slot.new []] none ['a'] (by decide)⟩

end GallryPuzzleSoulver
